import Mathlib

/-!
Shallow embedding of `src/emis_task/main.py`: extraction of Patient and
Encounter rows from parsed JSON entries, per-file processing, and the
batched, duplicate-safe loader.  Python dictionaries with possibly-missing
keys are modelled as structures of `Option` fields; a Python exception
escaping a function is modelled by `Except PyErr`.
-/

set_option maxHeartbeats 1000000

namespace EmisTask

/-- A Python exception raised during extraction: `KeyError` (carrying the
missing key) or `IndexError` (from `[0]` on an empty list). -/
inductive PyErr where
  | keyError : String → PyErr
  | indexError : PyErr
deriving DecidableEq, Repr

/-- One element of a resource's `name` list (keys `family`, `given`). -/
structure HumanName where
  family : Option String := none
  given : Option (List String) := none
deriving DecidableEq, Repr

/-- An address object with the four keys read by `format_address`. -/
structure Address where
  line : Option (List String) := none
  city : Option String := none
  state : Option String := none
  country : Option String := none
deriving DecidableEq, Repr

/-- A `{"text": ...}` object (used for `maritalStatus` and `type` items). -/
structure Codeable where
  text : Option String := none
deriving DecidableEq, Repr

/-- The `subject` object of an Encounter (key `reference`). -/
structure SubjectRef where
  reference : Option String := none
deriving DecidableEq, Repr

/-- A `resource` dictionary, restricted to the keys the extractor reads. -/
structure Resource where
  resourceType : Option String := none
  id : Option String := none
  name : Option (List HumanName) := none
  gender : Option String := none
  birthDate : Option String := none
  deceasedDateTime : Option String := none
  maritalStatus : Option Codeable := none
  address : Option (List Address) := none
  status : Option String := none
  etype : Option (List Codeable) := none
  subject : Option SubjectRef := none
deriving DecidableEq, Repr

/-- One entry of a document's `entry` list (key `resource`). -/
structure Entry where
  resource : Option Resource := none
deriving DecidableEq, Repr

/-- A row of the `patients` table, as built by `extract_data_from_entry`. -/
structure PatientRow where
  ID : String
  Name : String
  Gender : String
  BirthDate : String
  DeceasedDateTime : Option String
  MaritalStatus : Option String
  Address : Option String
deriving DecidableEq, Repr

/-- A row of the `encounters` table. `Etype` models the "Type" column. -/
structure EncounterRow where
  EncounterID : String
  Status : String
  Etype : String
  PatientID : String
deriving DecidableEq, Repr

/-- The tagged result of `extract_data_from_entry`:
`{"type": "Patient"|"Encounter", "data": ...}`. -/
inductive Tagged where
  | patient : PatientRow → Tagged
  | encounter : EncounterRow → Tagged
deriving DecidableEq, Repr

/-- True for the characters stripped by Python's `.strip(", ")`. -/
def pyStripChar (c : Char) : Bool := c = ',' || c = ' '

/-- Python `s.strip(", ")`: remove every leading and trailing character
belonging to the set consisting of comma and space. -/
def pyStrip (s : String) : String :=
  ⟨((s.data.dropWhile pyStripChar).reverse.dropWhile pyStripChar).reverse⟩

/-- Python truthiness of the address dictionary (`if not address`): the
empty dictionary is falsy.  Keys other than the four read ones are not
modelled. -/
def addressTruthy (a : Address) : Bool :=
  a.line.isSome || a.city.isSome || a.state.isSome || a.country.isSome

/-- Source function `format_address`: join the `line` entries with ", ",
interpolate `line, city, state, country` comma-separated, and strip the
leading/trailing comma-or-space characters; the empty address gives
`None`. -/
def format_address (a : Address) : Option String :=
  if addressTruthy a then
    let line := String.intercalate ", " (a.line.getD [])
    let city := a.city.getD ""
    let state := a.state.getD ""
    let country := a.country.getD ""
    some (pyStrip (line ++ ", " ++ city ++ ", " ++ state ++ ", " ++ country))
  else none

/-- Source function `format_name`: `resource["name"][0]["family"]` and the
space-join of `resource["name"][0]["given"]`, as "Family, Given"; a missing
key raises `KeyError`, an empty `name` list raises `IndexError`. -/
def format_name (r : Resource) : Except PyErr String :=
  match r.name with
  | none => .error (.keyError "name")
  | some names =>
    match names with
    | [] => .error .indexError
    | n0 :: _ =>
      match n0.family with
      | none => .error (.keyError "family")
      | some fam =>
        match n0.given with
        | none => .error (.keyError "given")
        | some gs => .ok (fam ++ ", " ++ String.intercalate " " gs)

/-- The list of segments of Python `s.split(sep)` for a one-character
separator, over the character list of `s`. -/
def splitChar (sep : Char) : List Char → List (List Char)
  | [] => [[]]
  | c :: cs =>
    if c = sep then [] :: splitChar sep cs
    else
      match splitChar sep cs with
      | [] => [[c]]
      | p :: ps => (c :: p) :: ps

/-- Python `ref.split(":")[-1]`: the last segment of the colon-split. -/
def afterLastColon (s : String) : String :=
  ⟨(splitChar ':' s.data).getLastD []⟩

/-- Source function `extract_data_from_entry`.  Key reads happen in the
evaluation order of the Python dict literals, so the error names the first
key found missing; the `except KeyError` re-raise keeps the error a
`KeyError`, and `IndexError` is not caught at all. -/
def extract_data_from_entry (entry : Entry) : Except PyErr (Option Tagged) :=
  match entry.resource with
  | none => .error (.keyError "resource")
  | some r =>
    match r.resourceType with
    | none => .error (.keyError "resourceType")
    | some rt =>
      if rt = "Patient" then
        match r.id with
        | none => .error (.keyError "id")
        | some pid =>
          match format_name r with
          | .error e => .error e
          | .ok nm =>
            match r.gender with
            | none => .error (.keyError "gender")
            | some g =>
              match r.birthDate with
              | none => .error (.keyError "birthDate")
              | some bd =>
                match r.address.getD [{}] with
                | [] => .error .indexError
                | a0 :: _ =>
                  .ok (some (.patient
                    { ID := pid, Name := nm, Gender := g, BirthDate := bd,
                      DeceasedDateTime := r.deceasedDateTime,
                      MaritalStatus := (r.maritalStatus.getD {}).text,
                      Address := format_address a0 }))
      else if rt = "Encounter" then
        match r.id with
        | none => .error (.keyError "id")
        | some eid =>
          match r.status with
          | none => .error (.keyError "status")
          | some st =>
            match r.etype.getD [{}] with
            | [] => .error .indexError
            | t0 :: _ =>
              match r.subject with
              | none => .error (.keyError "subject")
              | some subj =>
                match subj.reference with
                | none => .error (.keyError "reference")
                | some ref =>
                  .ok (some (.encounter
                    { EncounterID := eid, Status := st,
                      Etype := t0.text.getD "Unknown",
                      PatientID := afterLastColon ref }))
      else .ok none

instance {ε α : Type} [DecidableEq ε] [DecidableEq α] : DecidableEq (Except ε α) := fun x y =>
  match x, y with
  | .error a, .error b => if h : a = b then isTrue (by rw [h]) else isFalse (by simp [h])
  | .ok a, .ok b => if h : a = b then isTrue (by rw [h]) else isFalse (by simp [h])
  | .error _, .ok _ => isFalse (by simp)
  | .ok _, .error _ => isFalse (by simp)

/-- A parsed document: the dictionary read with `data.get("entry", [])`. -/
structure Doc where
  entry : Option (List Entry) := none
deriving DecidableEq, Repr

/-- An input file, as seen by `process_file`: either a path whose open or
JSON parse fails with a message (`IOError` / `JSONDecodeError`), or a path
with its parsed document. -/
inductive FileInput where
  | bad : String → String → FileInput
  | good : String → Doc → FileInput
deriving DecidableEq, Repr

/-- The dictionary returned by `process_file`.  On the error path the
Python dict omits the `patients`/`encounters` keys; since no caller reads
them there (the loader skips error results), they are modelled as empty
lists. -/
structure FileResult where
  file : String
  patients : List PatientRow
  encounters : List EncounterRow
  error : Option String
deriving DecidableEq, Repr

/-- The patients list comprehension of `process_file`: for each entry in
order, evaluate the extractor (an escaping `KeyError`/`IndexError` aborts
the whole comprehension), keep the data of Patient-tagged results. -/
def listPatients : List Entry → Except PyErr (List PatientRow)
  | [] => .ok []
  | e :: rest =>
    match extract_data_from_entry e with
    | .error err => .error err
    | .ok r =>
      match listPatients rest with
      | .error err => .error err
      | .ok tail =>
        match r with
        | some (.patient p) => .ok (p :: tail)
        | _ => .ok tail

/-- The encounters list comprehension of `process_file`. -/
def listEncounters : List Entry → Except PyErr (List EncounterRow)
  | [] => .ok []
  | e :: rest =>
    match extract_data_from_entry e with
    | .error err => .error err
    | .ok r =>
      match listEncounters rest with
      | .error err => .error err
      | .ok tail =>
        match r with
        | some (.encounter en) => .ok (en :: tail)
        | _ => .ok tail

/-- Source function `process_file`: open/parse failure yields the error
dictionary; otherwise run the two comprehensions over
`data.get("entry", [])`.  Its `except` clause catches only `IOError` and
`json.JSONDecodeError`, so extraction errors escape as `.error`. -/
def process_file : FileInput → Except PyErr FileResult
  | .bad path msg => .ok { file := path, patients := [], encounters := [], error := some msg }
  | .good path doc =>
    let entries := doc.entry.getD []
    match listPatients entries with
    | .error e => .error e
    | .ok ps =>
      match listEncounters entries with
      | .error e => .error e
      | .ok es => .ok { file := path, patients := ps, encounters := es, error := none }

/-- Membership of a key value in a table, for the unique column given by
`key`. -/
def keyMem {α : Type} (key : α → String) (k : String) (table : List α) : Bool :=
  table.any fun r => key r = k

/-- Observable outcome of one `safe_insert` call: the table afterwards,
the records whose `conn.execute` raised `SQLAlchemyError` and were logged,
and the records for which an insert was attempted at all. -/
structure InsertResult (α : Type) where
  table : List α
  logged : List α
  attempted : List α

/-- Source function `safe_insert`: one `INSERT ... ON CONFLICT DO NOTHING`
per record.  `err r = true` models `conn.execute` raising
`SQLAlchemyError` for that record (caught and logged); otherwise the
execute inserts the record unless its unique key is already present, in
which case it does nothing.  The source's early return on an empty record
list coincides with the empty loop. -/
def safe_insert {α : Type} (err : α → Bool) (key : α → String) (table : List α) :
    List α → InsertResult α
  | [] => ⟨table, [], []⟩
  | r :: rs =>
    if err r then
      let rest := safe_insert err key table rs
      ⟨rest.table, r :: rest.logged, r :: rest.attempted⟩
    else
      let table' := if keyMem key (key r) table then table else table ++ [r]
      let rest := safe_insert err key table' rs
      ⟨rest.table, rest.logged, r :: rest.attempted⟩

/-- The two tables of the relational store. -/
structure Store where
  patients : List PatientRow
  encounters : List EncounterRow
deriving DecidableEq, Repr

/-- The store behaving normally: no `SQLAlchemyError` on any execute. -/
def noErr {α : Type} : α → Bool := fun _ => false

/-- One iteration of the loader's result loop: skip results carrying an
error (`if result["error"]: continue`; I/O and JSON error messages are
never the empty string, so Python truthiness coincides with presence),
else `safe_insert` the patients then the encounters. -/
def insertFileResult (s : Store) (res : FileResult) : Store :=
  if res.error.isSome then s
  else
    { patients := (safe_insert noErr PatientRow.ID s.patients res.patients).table,
      encounters :=
        (safe_insert noErr EncounterRow.EncounterID s.encounters res.encounters).table }

/-- Model of `pool.map(process_file, batch_files)`: results in file order; a worker
exception is re-raised in the parent. -/
def mapFiles : List FileInput → Except PyErr (List FileResult)
  | [] => .ok []
  | f :: fs =>
    match process_file f with
    | .error e => .error e
    | .ok r =>
      match mapFiles fs with
      | .error e => .error e
      | .ok rs => .ok (r :: rs)

/-- The loader's batch size. -/
def batch_size : Nat := 1000

/-- The slices `files[i : i + batch_size]` for `i in range(0, len(files),
batch_size)`, with structural recursion on a fuel argument.  Each step
drops at least one element, so any fuel at least the list length never
reaches the fuel-exhausted case. -/
def toBatchesFuel : Nat → List FileInput → List (List FileInput)
  | _, [] => []
  | 0, l => [l]
  | fuel + 1, f :: fs => ((f :: fs).take batch_size) :: toBatchesFuel fuel ((f :: fs).drop batch_size)

/-- The batch list of `process_directory`. -/
def toBatches (l : List FileInput) : List (List FileInput) :=
  toBatchesFuel l.length l

/-- The loader's batch loop: `n` is `len(files)`, the first argument the
0-based batch index.  Each iteration maps `process_file` over the batch,
folds the results into the store, and logs
`(i // batch_size + 1, len(files) // batch_size + 1)` as its progress
report. -/
def process_batches (n : Nat) : Nat → Store → List (List FileInput) →
    Except PyErr (Store × List (Nat × Nat))
  | _, s, [] => .ok (s, [])
  | b, s, batch :: rest =>
    match mapFiles batch with
    | .error e => .error e
    | .ok rs =>
      match process_batches n (b + 1) (rs.foldl insertFileResult s) rest with
      | .error e => .error e
      | .ok (st, reps) => .ok (st, (b + 1, n / batch_size + 1) :: reps)

/-- Source function `process_directory`, over an already-enumerated file
list and an explicit initial store: returns the final store and the list
of progress reports `(reported batch index, reported total)`. -/
def process_directory (files : List FileInput) (s : Store) :
    Except PyErr (Store × List (Nat × Nat)) :=
  process_batches files.length 0 s (toBatches files)

/-- Modelled from the spec (§4.2): bucket the successful extraction
results into the Patients sequence, preserving document order. -/
def collectPatients : List (Option Tagged) → List PatientRow
  | [] => []
  | some (.patient p) :: rest => p :: collectPatients rest
  | _ :: rest => collectPatients rest

/-- Modelled from the spec (§4.2): bucket the successful extraction
results into the Encounters sequence, preserving document order. -/
def collectEncounters : List (Option Tagged) → List EncounterRow
  | [] => []
  | some (.encounter e) :: rest => e :: collectEncounters rest
  | _ :: rest => collectEncounters rest

/-- The extractor applied to every entry in document order, the whole list
failing at the first entry whose extraction raises. -/
def mapExtract : List Entry → Except PyErr (List (Option Tagged))
  | [] => .ok []
  | e :: rest =>
    match extract_data_from_entry e with
    | .error err => .error err
    | .ok r =>
      match mapExtract rest with
      | .error err => .error err
      | .ok rs => .ok (r :: rs)

/-- The progress reports produced by `k` consecutive batches starting at
0-based batch index `b`, for a directory of `n` files. -/
def mkReports (n : Nat) : Nat → Nat → List (Nat × Nat)
  | _, 0 => []
  | b, Nat.succ k => (b + 1, n / batch_size + 1) :: mkReports n (b + 1) k

/-- A file result all of whose rows have their unique key already present
in the store `s` (vacuously, when the result carries an error and is
skipped). -/
def resultKeysIn (s : Store) (fr : FileResult) : Prop :=
  fr.error = none →
    ((∀ p ∈ fr.patients, keyMem PatientRow.ID p.ID s.patients = true) ∧
     (∀ e ∈ fr.encounters, keyMem EncounterRow.EncounterID e.EncounterID s.encounters = true))

/-- The empty store. -/
def store0 : Store := { patients := [], encounters := [] }

/-- A fully valid Patient resource. -/
def rJane : Resource :=
  { resourceType := some "Patient", id := some "2",
    name := some [{ family := some "Roe", given := some ["Jane"] }],
    gender := some "female", birthDate := some "1981-01-01" }

/-- The row extracted from `rJane`. -/
def janeRow : PatientRow :=
  ⟨"2", "Roe, Jane", "female", "1981-01-01", none, none, none⟩

/-- A Patient resource missing only the required `gender` key. -/
def rNoGender : Resource :=
  { resourceType := some "Patient", id := some "1",
    name := some [{ family := some "Doe", given := some ["John"] }],
    birthDate := some "1980-01-01" }

/-- A parsed file holding a Patient entry missing `gender` followed by a
fully valid Patient entry. -/
def fileMixed : FileInput :=
  .good "f.json" { entry := some [{ resource := some rNoGender }, { resource := some rJane }] }

/-- A directory of exactly 1000 candidate files. -/
def badFiles1000 : List FileInput := List.replicate 1000 (.bad "x.json" "parse error")

/-- A Patient resource whose required fields are present but whose
`address` key holds an empty list. -/
def rEmptyAddrList : Resource :=
  { resourceType := some "Patient", id := some "1",
    name := some [{ family := some "Doe", given := some ["John"] }],
    gender := some "male", birthDate := some "1980-01-01", address := some [] }

/-- An Encounter resource whose required fields are present but whose
`type` key holds an empty list. -/
def rEmptyTypeList : Resource :=
  { resourceType := some "Encounter", id := some "E1", status := some "finished",
    etype := some [] }

/-- Worked example: line, city, state and country all present. -/
def addrFull : Address :=
  { line := some ["1234 Main St"], city := some "Townsville", state := some "TS",
    country := some "Countryland" }

/-- Worked example: line and city only. -/
def addrLineCity : Address := { line := some ["1234 Main St"], city := some "Townsville" }

/-- Worked example: line, state and country (city absent). -/
def addrNoCity : Address :=
  { line := some ["1234 Main St"], state := some "TS", country := some "Countryland" }

/-- Worked example: city and state only. -/
def addrCityState : Address := { city := some "Townsville", state := some "TS" }

/-- A Patient resource with every required field and two given names, all
optional fields absent. -/
def rPatWit : Resource :=
  { resourceType := some "Patient", id := some "1",
    name := some [{ family := some "Doe", given := some ["John", "Q"] }],
    gender := some "male", birthDate := some "1980-01-01" }

/-- The address of the repository's Patient test fixture. -/
def addrElm : Address :=
  { line := some ["1234 Elm St"], city := some "Somewhere", state := some "CA",
    country := some "USA" }

/-- A Patient resource with every required field and all three optional
fields populated, the address matching the repository's test fixture. -/
def rPatFull : Resource :=
  { resourceType := some "Patient", id := some "1",
    name := some [{ family := some "Doe", given := some ["John"] }],
    gender := some "male", birthDate := some "1990-01-01",
    deceasedDateTime := some "2020-01-01T00:00:00Z",
    maritalStatus := some { text := some "single" },
    address := some [addrElm] }

/-- An Encounter resource with required fields, no type list, and subject
reference "Patient:1". -/
def rEncWit : Resource :=
  { resourceType := some "Encounter", id := some "E1", status := some "finished",
    subject := some { reference := some "Patient:1" } }

/-- An Encounter resource with a populated type text and subject reference
"Patient:42". -/
def rEncFull : Resource :=
  { resourceType := some "Encounter", id := some "E2", status := some "in-progress",
    etype := some [{ text := some "Emergency" }],
    subject := some { reference := some "Patient:42" } }

/-- A resource of an unrecognized kind. -/
def rObservation : Resource := { resourceType := some "Observation", id := some "O1" }

/-- A document order mixing a Patient, an unrecognized kind, and an
Encounter. -/
def wEntries : List Entry :=
  [{ resource := some rJane }, { resource := some rObservation }, { resource := some rEncWit }]

/-- A parseable single-patient file. -/
def wGood : FileInput := .good "a.json" { entry := some [{ resource := some rJane }] }

/-- The store after loading `wGood` into the empty store. -/
def wStore1 : Store := { patients := [janeRow], encounters := [] }

/-- A store-error oracle failing exactly on the record `1`. -/
def wErr : Nat → Bool := fun n => n = 1

/-- C3: `format_address` formats the empty address object to absent (not
an empty string), and the worked examples hold exactly: the internal empty
segment left by an absent city is kept while leading/trailing empty
separators are trimmed. -/
theorem claim3_format_address_examples :
    format_address {} = none ∧
    format_address addrFull = some "1234 Main St, Townsville, TS, Countryland" ∧
    format_address addrLineCity = some "1234 Main St, Townsville" ∧
    format_address addrNoCity = some "1234 Main St, , TS, Countryland" ∧
    format_address addrCityState = some "Townsville, TS" := by
  refine ⟨rfl, ?_, ?_, ?_, ?_⟩ <;> decide

/-- C10: extraction is not total on present-but-empty optional list
fields: a Patient entry whose `address` is an empty list and an Encounter
entry whose `type` is an empty list both raise an uncaught `IndexError`
instead of producing a row, an absent value, or a MissingField error. -/
theorem claim10_empty_list_raises_index_error :
    extract_data_from_entry { resource := some rEmptyAddrList } = .error .indexError ∧
    extract_data_from_entry { resource := some rEmptyTypeList } = .error .indexError := by
  exact ⟨by decide, by decide⟩

/-- C1 (code bug): a required-field absence in one entry is NOT contained
at entry scope.  The sibling entry is valid on its own, yet `process_file`
on the two-entry file propagates the `KeyError` (its `except` clause
catches only `IOError` and `JSONDecodeError`), so the file contributes no
rows and `process_directory` on the directory aborts. -/
theorem claim1_missing_field_aborts_file :
    extract_data_from_entry { resource := some rJane } = .ok (some (.patient janeRow)) ∧
    process_file fileMixed = .error (.keyError "gender") ∧
    process_directory [fileMixed] store0 = .error (.keyError "gender") := by
  exact ⟨by decide, by decide, by decide⟩

set_option maxRecDepth 10000 in
/-- C9 (code bug): on a directory of exactly 1000 files the loader runs a
single batch but reports it as "batch 1/2": the reported total
`len(files) // batch_size + 1` is 2 while the actual number of batches
(the ceiling of 1000 / 1000) is 1. -/
theorem claim9_reported_total_off_by_one :
    process_directory badFiles1000 store0 = .ok (store0, [(1, 2)]) ∧
    (toBatches badFiles1000).length = 1 ∧
    (badFiles1000.length + batch_size - 1) / batch_size = 1 := by
  refine ⟨by decide, by decide, by decide⟩


/-- Splitting never yields the empty list of segments. -/
theorem splitChar_ne_nil (sep : Char) (l : List Char) : splitChar sep l ≠ [] := by
  induction l with
  | nil => simp [splitChar]
  | cons c cs ih =>
    simp only [splitChar]
    by_cases h : c = sep
    · simp [h]
    · simp only [h, if_false]
      rcases hs : splitChar sep cs with _ | ⟨p, ps⟩ <;> simp

/-- A separator-free string splits into the single segment it is. -/
theorem splitChar_not_mem (sep : Char) (l : List Char) (h : sep ∉ l) :
    splitChar sep l = [l] := by
  induction l with
  | nil => rfl
  | cons c cs ih =>
    simp only [List.mem_cons, not_or] at h
    have hc : ¬ c = sep := fun hq => h.1 hq.symm
    simp [splitChar, hc, ih h.2]

/-- A string containing the separator splits into at least two segments. -/
theorem splitChar_length_ge_two (sep : Char) (l : List Char) (h : sep ∈ l) :
    2 ≤ (splitChar sep l).length := by
  induction l with
  | nil => simp at h
  | cons c cs ih =>
    by_cases hc : c = sep
    · simp only [splitChar, hc, if_true]
      have := splitChar_ne_nil sep cs
      rcases hs : splitChar sep cs with _ | ⟨p, ps⟩
      · exact absurd hs this
      · simp
    · have hmem : sep ∈ cs := by
        rcases List.mem_cons.mp h with h1 | h2
        · exact absurd h1.symm hc
        · exact h2
      have h2 := ih hmem
      simp only [splitChar, hc, if_false]
      rcases hs : splitChar sep cs with _ | ⟨p, ps⟩
      · exact absurd hs (splitChar_ne_nil sep cs)
      · rw [hs] at h2
        simpa using h2

/-- The last segment of a split is the part after the last separator. -/
theorem splitChar_getLast_append (sep : Char) (a b : List Char) (hb : sep ∉ b) :
    (splitChar sep (a ++ sep :: b)).getLast? = some b := by
  induction a with
  | nil =>
    simp [splitChar, splitChar_not_mem sep b hb]
  | cons c a' ih =>
    simp only [List.cons_append, splitChar]
    by_cases hc : c = sep
    · simp only [hc, if_true]
      rcases hs : splitChar sep (a' ++ sep :: b) with _ | ⟨p, ps⟩
      · exact absurd hs (splitChar_ne_nil _ _)
      · rw [hs] at ih
        rw [List.getLast?_cons_cons]
        exact ih
    · simp only [hc, if_false]
      rcases hs : splitChar sep (a' ++ sep :: b) with _ | ⟨p, ps⟩
      · exact absurd hs (splitChar_ne_nil _ _)
      · have h2 : 2 ≤ (splitChar sep (a' ++ sep :: b)).length :=
          splitChar_length_ge_two sep _ (by simp)
        rw [hs] at h2 ih
        rcases ps with _ | ⟨q, qs⟩
        · simp at h2
        · rw [List.getLast?_cons_cons] at ih ⊢
          exact ih

/-- Model of Python `split(":")[-1]` on a string of shape `a ++ ":" ++ b`
with `b` colon-free: the result is `b`. -/
theorem afterLastColon_append (a b : List Char) (hb : (':' : Char) ∉ b) :
    afterLastColon ⟨a ++ ':' :: b⟩ = ⟨b⟩ := by
  unfold afterLastColon
  rw [show (String.mk (a ++ ':' :: b)).data = a ++ ':' :: b from rfl]
  rw [List.getLastD_eq_getLast?, splitChar_getLast_append ':' a b hb]
  rfl

/-- C5: for a Patient entry, a missing required `id`, `gender` or
`birthDate` fails extraction with a `MissingField` (`KeyError`) naming the
missing key; otherwise — whatever the optional fields hold, the address
being absent or holding a first element — the extracted row's Name is the
first family name followed by ", " and the space-joined given names, the
deceased timestamp and the marital-status text are carried over, the first
address is formatted, and each missing optional field yields an absent
value instead of failing extraction. -/
theorem claim5_patient_extraction (r : Resource) (hrt : r.resourceType = some "Patient") :
    (r.id = none → extract_data_from_entry { resource := some r } = .error (.keyError "id")) ∧
    (∀ pid n0 ns fam gs, r.id = some pid → r.name = some (n0 :: ns) → n0.family = some fam →
      n0.given = some gs → r.gender = none →
      extract_data_from_entry { resource := some r } = .error (.keyError "gender")) ∧
    (∀ pid n0 ns fam gs g, r.id = some pid → r.name = some (n0 :: ns) → n0.family = some fam →
      n0.given = some gs → r.gender = some g → r.birthDate = none →
      extract_data_from_entry { resource := some r } = .error (.keyError "birthDate")) ∧
    (∀ pid n0 ns fam gs g bd, r.id = some pid → r.name = some (n0 :: ns) →
      n0.family = some fam → n0.given = some gs → r.gender = some g → r.birthDate = some bd →
      r.address = none →
      extract_data_from_entry { resource := some r } =
        .ok (some (.patient
          ⟨pid, fam ++ ", " ++ String.intercalate " " gs, g, bd,
            r.deceasedDateTime, (r.maritalStatus.getD {}).text, none⟩))) ∧
    (∀ pid n0 ns fam gs g bd a0 arest, r.id = some pid → r.name = some (n0 :: ns) →
      n0.family = some fam → n0.given = some gs → r.gender = some g → r.birthDate = some bd →
      r.address = some (a0 :: arest) →
      extract_data_from_entry { resource := some r } =
        .ok (some (.patient
          ⟨pid, fam ++ ", " ++ String.intercalate " " gs, g, bd,
            r.deceasedDateTime, (r.maritalStatus.getD {}).text, format_address a0⟩))) ∧
    (∀ pid n0 ns fam gs g bd, r.id = some pid → r.name = some (n0 :: ns) →
      n0.family = some fam → n0.given = some gs → r.gender = some g → r.birthDate = some bd →
      r.deceasedDateTime = none → r.maritalStatus = none → r.address = none →
      extract_data_from_entry { resource := some r } =
        .ok (some (.patient
          ⟨pid, fam ++ ", " ++ String.intercalate " " gs, g, bd, none, none, none⟩))) := by
  refine ⟨?_, ?_, ?_, ?_, ?_, ?_⟩
  · intro h
    simp [extract_data_from_entry, hrt, h]
  · intro pid n0 ns fam gs h1 h2 h3 h4 h5
    simp [extract_data_from_entry, format_name, hrt, h1, h2, h3, h4, h5]
  · intro pid n0 ns fam gs g h1 h2 h3 h4 h5 h6
    simp [extract_data_from_entry, format_name, hrt, h1, h2, h3, h4, h5, h6]
  · intro pid n0 ns fam gs g bd h1 h2 h3 h4 h5 h6 h7
    simp [extract_data_from_entry, format_name, format_address, addressTruthy,
      hrt, h1, h2, h3, h4, h5, h6, h7]
  · intro pid n0 ns fam gs g bd a0 arest h1 h2 h3 h4 h5 h6 h7
    simp [extract_data_from_entry, format_name, hrt, h1, h2, h3, h4, h5, h6, h7]
  · intro pid n0 ns fam gs g bd h1 h2 h3 h4 h5 h6 h7 h8 h9
    simp [extract_data_from_entry, format_name, format_address, addressTruthy,
      hrt, h1, h2, h3, h4, h5, h6, h7, h8, h9]

/-- Witness for C5 at two concrete Patient resources: one with deceased
timestamp, marital status, and a populated address all present, one with
every optional field missing. -/
theorem claim5_witness :
    extract_data_from_entry { resource := some rPatFull } =
      .ok (some (.patient ⟨"1", "Doe, John", "male", "1990-01-01",
        some "2020-01-01T00:00:00Z", some "single",
        some "1234 Elm St, Somewhere, CA, USA"⟩)) ∧
    extract_data_from_entry { resource := some rPatWit } =
      .ok (some (.patient ⟨"1", "Doe, John Q", "male", "1980-01-01", none, none, none⟩)) := by
  have hfull := (claim5_patient_extraction rPatFull rfl).2.2.2.2.1 "1"
    { family := some "Doe", given := some ["John"] } [] "Doe" ["John"] "male" "1990-01-01"
    addrElm [] rfl rfl rfl rfl rfl rfl rfl
  have hwit := (claim5_patient_extraction rPatWit rfl).2.2.2.2.2 "1"
    { family := some "Doe", given := some ["John", "Q"] } [] "Doe" ["John", "Q"] "male"
    "1980-01-01" rfl rfl rfl rfl rfl rfl rfl rfl rfl
  exact ⟨hfull.trans (by decide), hwit.trans (by decide)⟩

/-- C6: for an Encounter entry with `id` and `status` present, the
extracted Patient ID is the substring of the subject reference after its
last colon and the Type is the first type element's text — whether
populated or defaulted to "Unknown" when the type list is absent or its
first element lacks `text` — while extraction fails with a `MissingField`
(`KeyError`) when the subject or its reference is absent, again whatever
the type list holds.  The effective type list `r.etype.getD [{}]` is the
Python `resource.get("type", [{}])`. -/
theorem claim6_encounter_extraction (r : Resource) (hrt : r.resourceType = some "Encounter") :
    (∀ eid st t0 ts ref, r.id = some eid → r.status = some st →
      r.etype.getD [{}] = t0 :: ts → r.subject = some { reference := some ref } →
      extract_data_from_entry { resource := some r } =
        .ok (some (.encounter ⟨eid, st, t0.text.getD "Unknown", afterLastColon ref⟩))) ∧
    (∀ eid st ref, r.id = some eid → r.status = some st → r.etype = none →
      r.subject = some { reference := some ref } →
      extract_data_from_entry { resource := some r } =
        .ok (some (.encounter ⟨eid, st, "Unknown", afterLastColon ref⟩))) ∧
    (∀ eid st t0 ts ref, r.id = some eid → r.status = some st → r.etype = some (t0 :: ts) →
      t0.text = none → r.subject = some { reference := some ref } →
      extract_data_from_entry { resource := some r } =
        .ok (some (.encounter ⟨eid, st, "Unknown", afterLastColon ref⟩))) ∧
    (∀ eid st t0 ts, r.id = some eid → r.status = some st →
      r.etype.getD [{}] = t0 :: ts → r.subject = none →
      extract_data_from_entry { resource := some r } = .error (.keyError "subject")) ∧
    (∀ eid st t0 ts, r.id = some eid → r.status = some st →
      r.etype.getD [{}] = t0 :: ts → r.subject = some { reference := none } →
      extract_data_from_entry { resource := some r } = .error (.keyError "reference")) ∧
    (∀ a b : List Char, (':' : Char) ∉ b → afterLastColon ⟨a ++ ':' :: b⟩ = ⟨b⟩) := by
  refine ⟨?_, ?_, ?_, ?_, ?_, fun a b hb => afterLastColon_append a b hb⟩
  · intro eid st t0 ts ref h1 h2 h3 h4
    simp [extract_data_from_entry, hrt, h1, h2, h3, h4]
  · intro eid st ref h1 h2 h3 h4
    simp [extract_data_from_entry, hrt, h1, h2, h3, h4]
  · intro eid st t0 ts ref h1 h2 h3 h4 h5
    simp [extract_data_from_entry, hrt, h1, h2, h3, h4, h5]
  · intro eid st t0 ts h1 h2 h3 h4
    simp [extract_data_from_entry, hrt, h1, h2, h3, h4]
  · intro eid st t0 ts h1 h2 h3 h4
    simp [extract_data_from_entry, hrt, h1, h2, h3, h4]

/-- Witness for C6 at two concrete Encounter resources: one with a
populated type text "Emergency" and reference "Patient:42" (Patient ID
"42"), one with no type list and reference "Patient:1" (Type defaults to
"Unknown", Patient ID "1"). -/
theorem claim6_witness :
    extract_data_from_entry { resource := some rEncFull } =
      .ok (some (.encounter ⟨"E2", "in-progress", "Emergency", "42"⟩)) ∧
    extract_data_from_entry { resource := some rEncWit } =
      .ok (some (.encounter ⟨"E1", "finished", "Unknown", "1"⟩)) := by
  have hfull := (claim6_encounter_extraction rEncFull rfl).1 "E2" "in-progress"
    { text := some "Emergency" } [] "Patient:42" rfl rfl rfl rfl
  have hwit := (claim6_encounter_extraction rEncWit rfl).2.1 "E1" "finished" "Patient:1"
    rfl rfl rfl rfl
  exact ⟨hfull.trans (by decide), hwit.trans (by decide)⟩

/-- Every record of the batch gets an insert attempt, whatever conflicts
or store errors happen before it. -/
theorem safe_insert_attempted {α : Type} (err : α → Bool) (key : α → String)
    (table records : List α) :
    (safe_insert err key table records).attempted = records := by
  induction records generalizing table with
  | nil => rfl
  | cons r rs ih =>
    simp only [safe_insert]
    by_cases he : err r
    · simp [he, ih]
    · simp [he, ih]

/-- Exactly the records whose execute raises get logged; conflicts are not
logged. -/
theorem safe_insert_logged {α : Type} (err : α → Bool) (key : α → String)
    (table records : List α) :
    (safe_insert err key table records).logged = records.filter (fun r => err r) := by
  induction records generalizing table with
  | nil => rfl
  | cons r rs ih =>
    simp only [safe_insert]
    by_cases he : err r
    · simp [he, List.filter_cons, ih]
    · simp [he, List.filter_cons, ih]

/-- C7: in `safe_insert`, a unique-key conflict is silently ignored (the
conflicting row changes nothing and is never logged as an error), a store
write failure on one row is caught and logged at the scope of that single
insert attempt, and in both cases every subsequent record of the batch is
still attempted. -/
theorem claim7_insert_per_record {α : Type} (err : α → Bool) (key : α → String)
    (table records : List α) :
    (safe_insert err key table records).attempted = records ∧
    (safe_insert err key table records).logged = records.filter (fun r => err r) ∧
    (∀ r, err r = false → keyMem key (key r) table = true →
      (safe_insert err key table [r]).table = table) := by
  refine ⟨safe_insert_attempted err key table records,
    safe_insert_logged err key table records, ?_⟩
  intro r h1 h2
  simp [safe_insert, h1, h2]

/-- Witness for C7: over the table `[0]` keyed by decimal representation,
the batch `[0, 1, 2]` with a store error on record 1 still attempts all
three records, logs exactly record 1, and the conflicting record 0 leaves
the table unchanged. -/
theorem claim7_witness :
    (safe_insert wErr (fun n => toString n) [0] [0, 1, 2]).attempted = [0, 1, 2] ∧
    (safe_insert wErr (fun n => toString n) [0] [0, 1, 2]).logged = [1] ∧
    (safe_insert wErr (fun n => toString n) [0] [(0 : Nat)]).table = [0] := by
  have h := claim7_insert_per_record wErr (fun n => toString n) [0] [0, 1, 2]
  refine ⟨h.1, h.2.1.trans (by decide), ?_⟩
  exact (claim7_insert_per_record wErr (fun n => toString n) [0] [0]).2.2 0
    (by decide) (by decide)

/-- The patients comprehension equals the order-preserving Patients bucket
of the extraction results. -/
theorem listPatients_eq (entries : List Entry) (results : List (Option Tagged))
    (h : mapExtract entries = .ok results) :
    listPatients entries = .ok (collectPatients results) := by
  induction entries generalizing results with
  | nil =>
    simp only [mapExtract] at h
    cases h
    rfl
  | cons e rest ih =>
    simp only [mapExtract] at h
    cases hx : extract_data_from_entry e with
    | error err => rw [hx] at h; exact absurd h (by simp)
    | ok r =>
      rw [hx] at h
      cases hm : mapExtract rest with
      | error err => rw [hm] at h; exact absurd h (by simp)
      | ok rs =>
        rw [hm] at h
        simp only [Except.ok.injEq] at h
        subst h
        simp only [listPatients, hx, ih rs hm]
        rcases r with _ | ⟨p⟩ | ⟨en⟩ <;> simp [collectPatients]

/-- The encounters comprehension equals the order-preserving Encounters
bucket of the extraction results. -/
theorem listEncounters_eq (entries : List Entry) (results : List (Option Tagged))
    (h : mapExtract entries = .ok results) :
    listEncounters entries = .ok (collectEncounters results) := by
  induction entries generalizing results with
  | nil =>
    simp only [mapExtract] at h
    cases h
    rfl
  | cons e rest ih =>
    simp only [mapExtract] at h
    cases hx : extract_data_from_entry e with
    | error err => rw [hx] at h; exact absurd h (by simp)
    | ok r =>
      rw [hx] at h
      cases hm : mapExtract rest with
      | error err => rw [hm] at h; exact absurd h (by simp)
      | ok rs =>
        rw [hm] at h
        simp only [Except.ok.injEq] at h
        subst h
        simp only [listEncounters, hx, ih rs hm]
        rcases r with _ | ⟨p⟩ | ⟨en⟩ <;> simp [collectEncounters]

/-- C8: the File Reader applies the extractor to every entry in document
order and partitions the successful results into the Patients and
Encounters sequences, each preserving document order, while an entry whose
resource kind is neither "Patient" nor "Encounter" yields no result and is
ignored. -/
theorem claim8_reader_partitions (path : String) (entries : List Entry)
    (results : List (Option Tagged)) (h : mapExtract entries = .ok results) :
    process_file (.good path { entry := some entries }) =
      .ok { file := path, patients := collectPatients results,
            encounters := collectEncounters results, error := none } ∧
    (∀ (r : Resource) (rt : String), r.resourceType = some rt → rt ≠ "Patient" →
      rt ≠ "Encounter" → extract_data_from_entry { resource := some r } = .ok none) := by
  constructor
  · simp only [process_file, Option.getD_some]
    rw [listPatients_eq entries results h, listEncounters_eq entries results h]
  · intro r rt h1 h2 h3
    simp [extract_data_from_entry, h1, h2, h3]

/-- Witness for C8 on a document holding a Patient, an Observation, and an
Encounter: the Observation is dropped, the buckets keep document order. -/
theorem claim8_witness :
    process_file (.good "w.json" { entry := some wEntries }) =
      .ok { file := "w.json",
            patients := [janeRow],
            encounters := [⟨"E1", "finished", "Unknown", "1"⟩],
            error := none } := by
  have h := (claim8_reader_partitions "w.json" wEntries
      [some (.patient janeRow), none, some (.encounter ⟨"E1", "finished", "Unknown", "1"⟩)]
      (by decide)).1
  exact h.trans (by decide)

/-- Inserting only ever appends rows: the prior table is preserved
verbatim as a prefix, so stored rows are never overwritten. -/
theorem safe_insert_table_append {α : Type} (err : α → Bool) (key : α → String)
    (table records : List α) :
    ∃ ext, (safe_insert err key table records).table = table ++ ext := by
  induction records generalizing table with
  | nil => exact ⟨[], by simp [safe_insert]⟩
  | cons r rs ih =>
    simp only [safe_insert]
    by_cases he : err r
    · simpa [he] using ih table
    · simp only [he, if_false]
      by_cases hk : keyMem key (key r) table
      · simpa [hk] using ih table
      · obtain ⟨ext, hx⟩ := ih (table ++ [r])
        exact ⟨r :: ext, by simp [hk, hx]⟩

/-- Key membership is stable under appending rows. -/
theorem keyMem_append {α : Type} (key : α → String) (k : String) (t ext : List α)
    (h : keyMem key k t = true) : keyMem key k (t ++ ext) = true := by
  simp only [keyMem, List.any_append, Bool.or_eq_true]
  exact Or.inl h

/-- After a conflict-free-store insert, every inserted record's key is
present in the table. -/
theorem safe_insert_keys {α : Type} (key : α → String) (table records : List α) :
    ∀ r ∈ records, keyMem key (key r) (safe_insert noErr key table records).table = true := by
  induction records generalizing table with
  | nil => simp
  | cons r rs ih =>
    intro x hx
    rcases List.mem_cons.mp hx with rfl | hmem
    · by_cases hk : keyMem key (key x) table
      · obtain ⟨ext, he⟩ := safe_insert_table_append noErr key table rs
        have hred : (safe_insert noErr key table (x :: rs)).table
            = (safe_insert noErr key table rs).table := by
          simp [safe_insert, noErr, hk]
        rw [hred, he]
        exact keyMem_append key (key x) table ext hk
      · obtain ⟨ext, he⟩ := safe_insert_table_append noErr key (table ++ [x]) rs
        have hred : (safe_insert noErr key table (x :: rs)).table
            = (safe_insert noErr key (table ++ [x]) rs).table := by
          simp [safe_insert, noErr, hk]
        rw [hred, he]
        simp [keyMem, List.any_append]
    · by_cases hk : keyMem key (key r) table
      · have hred : (safe_insert noErr key table (r :: rs)).table
            = (safe_insert noErr key table rs).table := by
          simp [safe_insert, noErr, hk]
        rw [hred]
        exact ih table x hmem
      · have hred : (safe_insert noErr key table (r :: rs)).table
            = (safe_insert noErr key (table ++ [r]) rs).table := by
          simp [safe_insert, noErr, hk]
        rw [hred]
        exact ih (table ++ [r]) x hmem

/-- Inserting records whose keys are all already stored leaves the table
unchanged: duplicates are silently skipped, first-seen ID wins. -/
theorem safe_insert_noop {α : Type} (key : α → String) (table records : List α)
    (h : ∀ r ∈ records, keyMem key (key r) table = true) :
    (safe_insert noErr key table records).table = table := by
  induction records with
  | nil => rfl
  | cons r rs ih =>
    have hk : keyMem key (key r) table = true := h r (List.mem_cons_self r rs)
    simp only [safe_insert, noErr, if_false, hk, if_true]
    exact ih fun x hx => h x (List.mem_cons_of_mem r hx)

/-- One result's insertion only appends to both tables. -/
theorem insertFileResult_extends (s : Store) (fr : FileResult) :
    ∃ eP eE, (insertFileResult s fr).patients = s.patients ++ eP ∧
      (insertFileResult s fr).encounters = s.encounters ++ eE := by
  unfold insertFileResult
  by_cases he : fr.error.isSome
  · exact ⟨[], [], by simp [he], by simp [he]⟩
  · obtain ⟨eP, hP⟩ := safe_insert_table_append noErr PatientRow.ID s.patients fr.patients
    obtain ⟨eE, hE⟩ :=
      safe_insert_table_append noErr EncounterRow.EncounterID s.encounters fr.encounters
    exact ⟨eP, eE, by simp [he, hP], by simp [he, hE]⟩

/-- Folding a result list over the store only appends to both tables. -/
theorem foldl_insertFileResult_extends (rs : List FileResult) :
    ∀ s : Store, ∃ eP eE, (rs.foldl insertFileResult s).patients = s.patients ++ eP ∧
      (rs.foldl insertFileResult s).encounters = s.encounters ++ eE := by
  induction rs with
  | nil => exact fun s => ⟨[], [], by simp, by simp⟩
  | cons r rst ih =>
    intro s
    obtain ⟨eP1, eE1, hP1, hE1⟩ := insertFileResult_extends s r
    obtain ⟨eP2, eE2, hP2, hE2⟩ := ih (insertFileResult s r)
    refine ⟨eP1 ++ eP2, eE1 ++ eE2, ?_, ?_⟩
    · rw [List.foldl_cons, hP2, hP1, List.append_assoc]
    · rw [List.foldl_cons, hE2, hE1, List.append_assoc]

/-- Key coverage of a result is stable under growing the store. -/
theorem resultKeysIn_extends (s s' : Store) (fr : FileResult)
    (hP : ∃ eP, s'.patients = s.patients ++ eP)
    (hE : ∃ eE, s'.encounters = s.encounters ++ eE)
    (h : resultKeysIn s fr) : resultKeysIn s' fr := by
  intro herr
  obtain ⟨h1, h2⟩ := h herr
  obtain ⟨eP, hP⟩ := hP
  obtain ⟨eE, hE⟩ := hE
  constructor
  · intro p hp
    rw [hP]
    exact keyMem_append _ _ _ _ (h1 p hp)
  · intro e he
    rw [hE]
    exact keyMem_append _ _ _ _ (h2 e he)

/-- After inserting a result, the store covers that result's keys. -/
theorem resultKeysIn_insert_self (s : Store) (fr : FileResult) :
    resultKeysIn (insertFileResult s fr) fr := by
  intro herr
  have hs : fr.error.isSome = false := by simp [herr]
  constructor
  · intro p hp
    simp only [insertFileResult, hs, Bool.false_eq_true, if_false]
    exact safe_insert_keys PatientRow.ID s.patients fr.patients p hp
  · intro e he
    simp only [insertFileResult, hs, Bool.false_eq_true, if_false]
    exact safe_insert_keys EncounterRow.EncounterID s.encounters fr.encounters e he

/-- After a full fold, the store covers every folded result's keys. -/
theorem resultKeysIn_foldl (rs : List FileResult) :
    ∀ (s : Store), ∀ fr ∈ rs, resultKeysIn (rs.foldl insertFileResult s) fr := by
  induction rs with
  | nil => simp
  | cons r rst ih =>
    intro s fr hfr
    rw [List.foldl_cons]
    rcases List.mem_cons.mp hfr with rfl | hmem
    · obtain ⟨eP, eE, hP, hE⟩ := foldl_insertFileResult_extends rst (insertFileResult s fr)
      exact resultKeysIn_extends _ _ fr ⟨eP, hP⟩ ⟨eE, hE⟩ (resultKeysIn_insert_self s fr)
    · exact ih (insertFileResult s r) fr hmem

/-- Re-inserting a result whose keys the store already covers is a no-op. -/
theorem insertFileResult_noop (s : Store) (fr : FileResult) (h : resultKeysIn s fr) :
    insertFileResult s fr = s := by
  cases herr : fr.error with
  | some msg => simp [insertFileResult, herr]
  | none =>
    obtain ⟨h1, h2⟩ := h herr
    have hs : fr.error.isSome = false := by simp [herr]
    simp only [insertFileResult, hs, Bool.false_eq_true, if_false]
    rw [safe_insert_noop PatientRow.ID s.patients fr.patients h1,
      safe_insert_noop EncounterRow.EncounterID s.encounters fr.encounters h2]

/-- Re-folding results whose keys the store already covers is a no-op. -/
theorem foldl_insertFileResult_noop (rs : List FileResult) (s : Store)
    (h : ∀ fr ∈ rs, resultKeysIn s fr) : rs.foldl insertFileResult s = s := by
  induction rs with
  | nil => rfl
  | cons r rst ih =>
    rw [List.foldl_cons, insertFileResult_noop s r (h r (List.mem_cons_self r rst))]
    exact ih fun fr hfr => h fr (List.mem_cons_of_mem r hfr)

/-- Concatenating the batch slices gives back the file list. -/
theorem toBatchesFuel_flatten (fuel : Nat) :
    ∀ l : List FileInput, (toBatchesFuel fuel l).flatten = l := by
  induction fuel with
  | zero => intro l; cases l <;> simp [toBatchesFuel]
  | succ n ih =>
    intro l
    cases l with
    | nil => simp [toBatchesFuel]
    | cons f fs => simp [toBatchesFuel, ih]

/-- Concatenating `toBatches` gives back the file list. -/
theorem toBatches_flatten (l : List FileInput) : (toBatches l).flatten = l :=
  toBatchesFuel_flatten l.length l

/-- Mapping over a concatenation concatenates successful results. -/
theorem mapFiles_append_ok (l1 l2 : List FileInput) (a b : List FileResult)
    (h1 : mapFiles l1 = .ok a) (h2 : mapFiles l2 = .ok b) :
    mapFiles (l1 ++ l2) = .ok (a ++ b) := by
  induction l1 generalizing a with
  | nil =>
    simp only [mapFiles] at h1
    cases h1
    simpa using h2
  | cons f fs ih =>
    simp only [mapFiles] at h1 ⊢
    cases hp : process_file f with
    | error e => rw [hp] at h1; exact absurd h1 (by simp)
    | ok r =>
      rw [hp] at h1
      cases hm : mapFiles fs with
      | error e => rw [hm] at h1; exact absurd h1 (by simp)
      | ok rs =>
        rw [hm] at h1
        simp only [Except.ok.injEq] at h1
        subst h1
        rw [List.cons_append]
        simp [mapFiles, hp, ih rs hm]

/-- A successful map over a concatenation splits into successful maps. -/
theorem mapFiles_ok_split (l1 l2 : List FileInput) (c : List FileResult)
    (h : mapFiles (l1 ++ l2) = .ok c) :
    ∃ a b, mapFiles l1 = .ok a ∧ mapFiles l2 = .ok b ∧ c = a ++ b := by
  induction l1 generalizing c with
  | nil => exact ⟨[], c, rfl, by simpa using h, by simp⟩
  | cons f fs ih =>
    rw [List.cons_append] at h
    simp only [mapFiles] at h
    cases hp : process_file f with
    | error e => rw [hp] at h; exact absurd h (by simp)
    | ok r =>
      rw [hp] at h
      cases hm : mapFiles (fs ++ l2) with
      | error e => rw [hm] at h; exact absurd h (by simp)
      | ok rs =>
        rw [hm] at h
        simp only [Except.ok.injEq] at h
        subst h
        obtain ⟨a, b, ha, hb, rfl⟩ := ih rs hm
        exact ⟨r :: a, b, by simp [mapFiles, hp, ha], hb, by simp⟩

/-- The batch loop over any batch list whose concatenation maps cleanly
folds all results in order and reports one progress pair per batch. -/
theorem process_batches_ok (bs : List (List FileInput)) :
    ∀ (n b : Nat) (s : Store) (rs : List FileResult), mapFiles bs.flatten = .ok rs →
      process_batches n b s bs = .ok (rs.foldl insertFileResult s, mkReports n b bs.length) := by
  induction bs with
  | nil =>
    intro n b s rs h
    simp only [List.flatten_nil, mapFiles] at h
    cases h
    rfl
  | cons batch rest ih =>
    intro n b s rs h
    rw [List.flatten_cons] at h
    obtain ⟨a, brs, ha, hb, rfl⟩ := mapFiles_ok_split batch rest.flatten rs h
    simp only [process_batches, ha]
    rw [ih n (b + 1) (a.foldl insertFileResult s) brs hb]
    simp [List.foldl_append, mkReports]

/-- A successful batch loop comes from a successful map of all files. -/
theorem process_batches_ok_inv (bs : List (List FileInput)) :
    ∀ (n b : Nat) (s st : Store) (reps : List (Nat × Nat)),
      process_batches n b s bs = .ok (st, reps) →
      ∃ rs, mapFiles bs.flatten = .ok rs ∧ st = rs.foldl insertFileResult s ∧
        reps = mkReports n b bs.length := by
  induction bs with
  | nil =>
    intro n b s st reps h
    simp only [process_batches, Except.ok.injEq, Prod.mk.injEq] at h
    exact ⟨[], by simp [mapFiles], by simp [h.1.symm], by simp [h.2.symm, mkReports]⟩
  | cons batch rest ih =>
    intro n b s st reps h
    simp only [process_batches] at h
    cases hm : mapFiles batch with
    | error e => simp [hm] at h
    | ok a =>
      simp only [hm] at h
      cases hr : process_batches n (b + 1) (a.foldl insertFileResult s) rest with
      | error e => simp [hr] at h
      | ok p =>
        obtain ⟨st', reps'⟩ := p
        simp only [hr, Except.ok.injEq, Prod.mk.injEq] at h
        obtain ⟨rfl, rfl⟩ := h
        obtain ⟨brs, hbrs, hst, hreps⟩ := ih n (b + 1) _ st' reps' hr
        refine ⟨a ++ brs, ?_, ?_, ?_⟩
        · rw [List.flatten_cons]
          exact mapFiles_append_ok batch rest.flatten a brs hm hbrs
        · rw [List.foldl_append, hst]
        · simp [mkReports, hreps]

/-- The loader on a cleanly-read directory folds every file's rows into
the store in file order. -/
theorem process_directory_ok (files : List FileInput) (s : Store) (rs : List FileResult)
    (h : mapFiles files = .ok rs) :
    process_directory files s =
      .ok (rs.foldl insertFileResult s,
        mkReports files.length 0 (toBatches files).length) := by
  unfold process_directory
  exact process_batches_ok (toBatches files) files.length 0 s rs
    (by rw [toBatches_flatten]; exact h)

/-- A successful loader run determines a successful map of all its files
and the store as the fold of their results. -/
theorem process_directory_ok_inv (files : List FileInput) (s st : Store)
    (pr : List (Nat × Nat)) (h : process_directory files s = .ok (st, pr)) :
    ∃ rs, mapFiles files = .ok rs ∧ st = rs.foldl insertFileResult s ∧
      pr = mkReports files.length 0 (toBatches files).length := by
  unfold process_directory at h
  obtain ⟨rs, hm, hst, hpr⟩ :=
    process_batches_ok_inv (toBatches files) files.length 0 s st pr h
  rw [toBatches_flatten] at hm
  exact ⟨rs, hm, hst, hpr⟩

/-- C2: running the loader twice over the same directory against the same
store leaves the tables identical to running it once — the second run
changes nothing and reports the same progress — and rows already stored
are preserved verbatim in place (both tables only grow by appended rows,
so a duplicate unique key is silently skipped and never overwritten,
first-seen ID wins). -/
theorem claim2_loader_idempotent (files : List FileInput) (s s1 : Store)
    (p1 : List (Nat × Nat)) (h : process_directory files s = .ok (s1, p1)) :
    process_directory files s1 = .ok (s1, p1) ∧
    (∃ extP, s1.patients = s.patients ++ extP) ∧
    (∃ extE, s1.encounters = s.encounters ++ extE) := by
  obtain ⟨rs, hm, hst, hpr⟩ := process_directory_ok_inv files s s1 p1 h
  subst hst
  subst hpr
  refine ⟨?_, ?_, ?_⟩
  · rw [process_directory_ok files _ rs hm,
      foldl_insertFileResult_noop rs _ (fun fr hfr => resultKeysIn_foldl rs s fr hfr)]
  · obtain ⟨eP, eE, hP, hE⟩ := foldl_insertFileResult_extends rs s
    exact ⟨eP, hP⟩
  · obtain ⟨eP, eE, hP, hE⟩ := foldl_insertFileResult_extends rs s
    exact ⟨eE, hE⟩

/-- Witness for C2: loading a one-patient file into the empty store, then
loading it again, leaves the one-row store unchanged. -/
theorem claim2_witness :
    process_directory [wGood] store0 = .ok (wStore1, [(1, 1)]) ∧
    process_directory [wGood] wStore1 = .ok (wStore1, [(1, 1)]) := by
  have h : process_directory [wGood] store0 = .ok (wStore1, [(1, 1)]) := by decide
  exact ⟨h, (claim2_loader_idempotent [wGood] store0 wStore1 [(1, 1)] h).1⟩

/-- C4: a file that cannot be opened or parsed yields a result carrying
its path and error message with no rows, and inserting it anywhere into a
directory contributes zero rows to the store: the run still succeeds with
the same final store, the other files all processed. -/
theorem claim4_file_error_isolated (path msg : String) (f1 f2 : List FileInput)
    (s s' : Store) (pr : List (Nat × Nat))
    (h : process_directory (f1 ++ f2) s = .ok (s', pr)) :
    process_file (.bad path msg) =
      .ok { file := path, patients := [], encounters := [], error := some msg } ∧
    ∃ pr', process_directory (f1 ++ .bad path msg :: f2) s = .ok (s', pr') := by
  refine ⟨rfl, ?_⟩
  obtain ⟨rs, hm, hst, hpr⟩ := process_directory_ok_inv _ _ _ _ h
  obtain ⟨a, b, ha, hb, rfl⟩ := mapFiles_ok_split f1 f2 rs hm
  have hbad : mapFiles (FileInput.bad path msg :: f2) =
      .ok (⟨path, [], [], some msg⟩ :: b) := by
    simp [mapFiles, process_file, hb]
  have hall := mapFiles_append_ok f1 (FileInput.bad path msg :: f2) a
    (⟨path, [], [], some msg⟩ :: b) ha hbad
  refine ⟨mkReports (f1 ++ FileInput.bad path msg :: f2).length 0
    (toBatches (f1 ++ FileInput.bad path msg :: f2)).length, ?_⟩
  rw [process_directory_ok _ s _ hall]
  have hskip : insertFileResult (a.foldl insertFileResult s) ⟨path, [], [], some msg⟩
      = a.foldl insertFileResult s := by simp [insertFileResult]
  rw [List.foldl_append, List.foldl_cons, hskip, ← List.foldl_append, ← hst]

/-- Witness for C4: appending an unparseable file to a one-patient
directory leaves the final store unchanged. -/
theorem claim4_witness :
    process_file (.bad "b.json" "oops") =
      .ok { file := "b.json", patients := [], encounters := [], error := some "oops" } ∧
    ∃ pr', process_directory ([wGood] ++ FileInput.bad "b.json" "oops" :: []) store0 =
      .ok (wStore1, pr') :=
  claim4_file_error_isolated "b.json" "oops" [wGood] [] store0 wStore1 [(1, 1)] (by decide)


end EmisTask
